import Mathlib

/-!
Verification of the scene-visibility core of the OpenGL_3D_Scene repository:
the BSP tree (BSPTree.cpp / BSPTree.h), the distance-based LOD selector
(Item.cpp), and the scene controller's render pass (SceneManagerBSP).

Modelling conventions, shared by every definition below:

* `float` arithmetic is embedded as exact rational arithmetic (`ℚ`).  All
  quantities the claims depend on (dot products, the LOD thresholds 8 and 19,
  the frustum constants 0.1, 100, 16/9) are small and exactly representable;
  no claim hinges on rounding.
* `glm::vec3` becomes `Vec3`, a record of three rationals, with componentwise
  `+`, `-`, scalar `•`, `dot` and `cross` exactly as glm computes them.
* C++ pointer identity of `Item*` is embedded by giving each `Item` a numeric
  `id`: two distinct heap objects are two `Item` values with distinct `id`,
  even when their positions coincide.  Pointer comparison (`==` on `Item*`)
  is equality of the `Item` record.
* A `BSPTree*` that may be null becomes the inductive `BSPTree` with a `nil`
  constructor for `nullptr`.  A C++ guard `if (child) child->f(...)` together
  with the null slot is folded into the callee's `nil` case, which returns
  the value the guarded call would have left unchanged.
* `glm::normalize` and `tanf` are irrational.  The camera record therefore
  carries, as extra rational fields, the scalars those calls produce:
  `invLenRight` stands for `1 / length(cross(Front, Up))`, `invLenUp` for
  `1 / length(cross(right, Front))`, and `tanHalfFov` for
  `tanf(glm::radians(Fov) / 2)`.  The frustum theorems hold for every value
  of these fields, in particular the values the C++ code computes.
-/

/-- Embeds `glm::vec3` (componentwise rational coordinates). -/
structure Vec3 where
  x : ℚ
  y : ℚ
  z : ℚ
deriving DecidableEq, Repr

namespace Vec3

/-- Componentwise addition, as `glm::operator+`. -/
def add (a b : Vec3) : Vec3 := ⟨a.x + b.x, a.y + b.y, a.z + b.z⟩

/-- Componentwise subtraction, as `glm::operator-`. -/
def sub (a b : Vec3) : Vec3 := ⟨a.x - b.x, a.y - b.y, a.z - b.z⟩

/-- Scalar multiplication, as `glm::operator*` with a scalar. -/
def smul (c : ℚ) (v : Vec3) : Vec3 := ⟨c * v.x, c * v.y, c * v.z⟩

/-- `glm::dot`. -/
def dot (a b : Vec3) : ℚ := a.x * b.x + a.y * b.y + a.z * b.z

/-- `glm::cross`. -/
def cross (a b : Vec3) : Vec3 :=
  ⟨a.y * b.z - a.z * b.y, a.z * b.x - a.x * b.z, a.x * b.y - a.y * b.x⟩

end Vec3

instance : Add Vec3 := ⟨Vec3.add⟩
instance : Sub Vec3 := ⟨Vec3.sub⟩
instance : SMul ℚ Vec3 := ⟨Vec3.smul⟩

/-- Embeds a scene `Item*` (Item.h).  `id` models pointer identity:
distinct heap objects get distinct `id`, whatever their positions.
`position` is the `Item::position` field read by the BSP tree. -/
structure Item where
  id : Nat
  position : Vec3
deriving DecidableEq, Repr

/-- Embeds the camera state read by the BSP tree (camera.h fields
`Position`, `Front`, `Up`, `Fov`).  The last three fields stand for the
irrational scalars derived from it, see the file header. -/
structure Camera where
  Position : Vec3
  Front : Vec3
  Up : Vec3
  invLenRight : ℚ
  invLenUp : ℚ
  tanHalfFov : ℚ

/-- Embeds `BSPTree*`: `nil` is `nullptr`; `node` is a `BSPTree` object with
its `partitionItem`, `front` and `back` members (BSPTree.h). -/
inductive BSPTree where
  | nil : BSPTree
  | node (partitionItem : Item) (front : BSPTree) (back : BSPTree) : BSPTree
deriving DecidableEq, Repr

namespace BSPTree

/-- The fixed splitting normal `glm::vec3(0.0f, 0.0f, 1.0f)` (BSPTree.h). -/
def normalVec : Vec3 := ⟨0, 0, 1⟩

/-- The dot product computed at the top of `BSPTree::insert` and
`BSPTree::remove`: `dot(item->position - partitionItem->position, normal)`. -/
def planeDot (item anchor : Item) : ℚ :=
  Vec3.dot (item.position - anchor.position) normalVec

/-- Embeds `BSPTree::insert` (BSPTree.cpp, lines 22-42).  The C++ guard
`if (back) back->insert(item); else back = new BSPTree(item);` is folded into
the `nil` case: inserting into an empty slot creates the leaf node the parent
would have stored there. -/
def insert : BSPTree → Item → BSPTree
  | .nil, item => .node item .nil .nil
  | .node p f b, item =>
    if planeDot item p < 0 then .node p f (insert b item)
    else .node p (insert f item) b

/-- The loop inside `BSPTree::mergeSubtrees`: walk the `front` chain of the
first argument to its rightmost node and attach the second argument as that
node's `front` child. -/
def attachRightmost : BSPTree → BSPTree → BSPTree
  | .nil, b => b
  | .node p f bk, b => .node p (attachRightmost f b) bk

/-- Embeds `BSPTree::mergeSubtrees` (BSPTree.cpp, lines 55-66). -/
def mergeSubtrees : BSPTree → BSPTree → BSPTree
  | .nil, b => b
  | f, .nil => f
  | f, b => attachRightmost f b

/-- All items stored in a (sub)tree, anchor first then front then back. -/
def itemsOf : BSPTree → List Item
  | .nil => []
  | .node p f b => p :: (itemsOf f ++ itemsOf b)

/-- The objects freed by `delete child` for a non-null child pointer:
`~BSPTree` (BSPTree.h, lines 43-52) runs
`if (front) { delete front->partitionItem; delete front; }` and the same for
`back`, so deleting a child node frees every item of that child's subtree,
the child's own anchor included. -/
def childFreed : BSPTree → List Item
  | .nil => []
  | .node p f b => p :: (childFreed f ++ childFreed b)

/-- Embeds `BSPTree::remove` (BSPTree.cpp, lines 76-108), returning both the
resulting tree and, in order, the `Item*` objects the call passes to
`delete`: on an identity match the code runs `delete temp->partitionItem`
and then `delete temp`, and the destructor of `temp` recursively deletes the
two child subtrees that `mergeSubtrees` has just re-linked (it does not null
`temp`'s child pointers first), freeing every item below the matched node. -/
def removeFreed : BSPTree → Item → BSPTree × List Item
  | .nil, _ => (.nil, [])
  | .node p f b, item =>
    if planeDot item p < 0 then
      match b with
      | .nil => (.node p f .nil, [])
      | .node bp bf bb =>
        if bp = item then
          (.node p f (mergeSubtrees bf bb), bp :: (childFreed bf ++ childFreed bb))
        else
          let r := removeFreed (.node bp bf bb) item
          (.node p f r.1, r.2)
    else
      match f with
      | .nil => (.node p .nil b, [])
      | .node fp ff fb =>
        if fp = item then
          (.node p (mergeSubtrees ff fb) b, fp :: (childFreed ff ++ childFreed fb))
        else
          let r := removeFreed (.node fp ff fb) item
          (.node p r.1 b, r.2)

/-- The tree left behind by `BSPTree::remove`. -/
def removeTree (t : BSPTree) (item : Item) : BSPTree := (removeFreed t item).1

/-- The items `BSPTree::remove` deallocates. -/
def freedBy (t : BSPTree) (item : Item) : List Item := (removeFreed t item).2

/-- Whether the classification descent of `BSPTree::remove` reaches a child
node whose anchor is the very object being removed (the only situation in
which `remove` modifies anything).  Mirrors the branch structure of
`removeFreed`. -/
def findable : BSPTree → Item → Bool
  | .nil, _ => false
  | .node p f b, item =>
    if planeDot item p < 0 then
      match b with
      | .nil => false
      | .node bp bf bb =>
        if bp = item then true else findable (.node bp bf bb) item
    else
      match f with
      | .nil => false
      | .node fp ff fb =>
        if fp = item then true else findable (.node fp ff fb) item

/-- Embeds `BSPTree::isPointInFrustum` (BSPTree.cpp, lines 120-150).
`normalize` is embedded as multiplication by the camera's stored
inverse-length scalars and `tanf(radians(Fov)/2)` as `cam.tanHalfFov`;
the numeric constants (near 0.1, far 100, aspect 16/9) are the source's. -/
def isPointInFrustum (point : Vec3) (cam : Camera) : Bool :=
  let right := cam.invLenRight • Vec3.cross cam.Front cam.Up
  let up := cam.invLenUp • Vec3.cross right cam.Front
  let nearPlane : ℚ := 1 / 10
  let farPlane : ℚ := 100
  let aspect : ℚ := 16 / 9
  let halfVSide := nearPlane * cam.tanHalfFov
  let halfHSide := halfVSide * aspect
  let nearCenter := cam.Position + nearPlane • cam.Front
  let farCenter := cam.Position + farPlane • cam.Front
  let planes : List Vec3 :=
    [nearCenter + halfVSide • up, nearCenter - halfVSide • up,
     nearCenter + halfHSide • right, nearCenter - halfHSide • right,
     nearCenter, farCenter]
  planes.all fun pl => decide (0 ≤ Vec3.dot (point - cam.Position) (pl - cam.Position))

/-- Embeds `BSPTree::getAllFrontItems` (BSPTree.cpp, lines 163-184),
returning the list of items appended to `result`, in append order.  The
guards `if (back) ...` / `if (front) ...` are folded into the `nil` case,
which emits nothing, exactly as the skipped call would. -/
def getAllFrontItems : BSPTree → Camera → Bool → List Item
  | .nil, _, _ => []
  | .node p f b, cam, checkFrustum =>
    let toItem := p.position - cam.Position
    let isInFront := decide (0 < Vec3.dot toItem cam.Front)
    let isInFrustum := !checkFrustum || isPointInFrustum p.position cam
    if isInFront && isInFrustum then
      getAllFrontItems b cam checkFrustum ++ p :: getAllFrontItems f cam checkFrustum
    else
      getAllFrontItems f cam checkFrustum

/-- Embeds `BSPTree::getCurrentFrontItems` (BSPTree.cpp, lines 196-200):
clears the member vector and refills it via `getAllFrontItems`, so the call
returns exactly the freshly collected list. -/
def getCurrentFrontItems (t : BSPTree) (cam : Camera) (checkFrustum : Bool) : List Item :=
  getAllFrontItems t cam checkFrustum

/-- Folds a sequence of `BSPTree::insert` calls, as issued by
`SceneManagerBSP::addObject`. -/
def insertAll (t : BSPTree) (xs : List Item) : BSPTree := xs.foldl insert t

/-- Folds a sequence of `BSPTree::remove` calls, as issued by
`SceneManagerBSP::removeObject`. -/
def removeAll (t : BSPTree) (xs : List Item) : BSPTree := xs.foldl removeTree t

/-- The classification-consistency invariant of the spec: at every node,
every object stored via `front` has a non-negative projection onto the
node's normal relative to the node's anchor, and every object stored via
`back` a negative one. -/
def invariant : BSPTree → Prop
  | .nil => True
  | .node p f b =>
    (∀ o ∈ itemsOf f, 0 ≤ planeDot o p) ∧
    (∀ o ∈ itemsOf b, planeDot o p < 0) ∧
    invariant f ∧ invariant b

end BSPTree

namespace Item

/-- Embeds the mesh selection of `Item::drawMeshBasedOnDistance` (Item.cpp,
lines 36-59): which of the two meshes is drawn, if any, as a function of the
camera-to-part distance.  In the source the distance is
`calculateDistance(translationVec)`, the Euclidean length of
`camera.Position - objectPosition`; the square root is irrational, so the
model takes the resulting distance as its parameter.  The branch structure
(`< 8` high, `else <= 19` low, else nothing) is the source's. -/
def drawMeshBasedOnDistance {α : Type} (distance : ℚ) (highMesh lowMesh : α) : Option α :=
  if distance < 8 then some highMesh
  else if distance ≤ 19 then some lowMesh
  else none

end Item

namespace SceneManagerBSP

/-- Embeds `SceneManagerBSP::renderScene` (MeshCreator.cpp, lines 1367-1382)
as the ordered list of objects whose `render()` is invoked: first each item
of `getCurrentFrontItems`, then the freshly constructed `Walls` object,
passed here as the parameter `walls` (`new Walls(...)` yields an object
distinct from every object already in the partition). -/
def renderScene (t : BSPTree) (cam : Camera) (checkFrustum : Bool) (walls : Item) : List Item :=
  BSPTree.getCurrentFrontItems t cam checkFrustum ++ [walls]

end SceneManagerBSP

/-! Concrete scene data used by the testable-property scenarios. -/

/-- The construction-time root anchor, placed at the origin. -/
def rootAnchor : Item := ⟨0, ⟨0, 0, 0⟩⟩

/-- Scenario object A at `(0, 0, -5)`. -/
def itemA : Item := ⟨1, ⟨0, 0, -5⟩⟩

/-- Scenario object B at `(0, 0, 5)`. -/
def itemB : Item := ⟨2, ⟨0, 0, 5⟩⟩

/-- Scenario camera at `(0, 0, 10)` facing `(0, 0, -1)` with up `(0, 1, 0)`
and a 90-degree field of view.  With these orthonormal basis vectors both
cross products are unit vectors, so the stored inverse lengths are exactly 1,
and `tan(45°) = 1` exactly. -/
def sceneCam : Camera := ⟨⟨0, 0, 10⟩, ⟨0, 0, -1⟩, ⟨0, 1, 0⟩, 1, 1, 1⟩

/-- The scenario tree: root anchor, then A, then B inserted. -/
def scenarioTree : BSPTree :=
  BSPTree.insertAll (.node rootAnchor .nil .nil) [itemA, itemB]

/-- A camera at the origin facing `(0, 0, -1)`, used by the frustum-branch
scenarios. -/
def originCam : Camera := ⟨⟨0, 0, 0⟩, ⟨0, 0, -1⟩, ⟨0, 1, 0⟩, 1, 1, 1⟩

/-- Removal-scenario object at `(0, 0, 2)`. -/
def itemC : Item := ⟨1, ⟨0, 0, 2⟩⟩

/-- Removal-scenario object at `(0, 0, 3)`; inserted after `itemC` it becomes
the front child of `itemC`'s node. -/
def itemD : Item := ⟨2, ⟨0, 0, 3⟩⟩

/-- The removal-scenario tree: the node of `itemC` has `itemD`'s node as a
populated child. -/
def removalTree : BSPTree :=
  BSPTree.insertAll (.node rootAnchor .nil .nil) [itemC, itemD]

/-- An object sharing `itemB`'s position but with a different identity
(a distinct heap object at the same coordinates). -/
def itemBTwin : Item := ⟨9, ⟨0, 0, 5⟩⟩

/-- A tree holding `itemB` and, in `itemB`'s front subtree, its same-position
twin. -/
def twinTree : BSPTree :=
  BSPTree.insertAll (.node rootAnchor .nil .nil) [itemB, itemBTwin]

/-- An object behind `sceneCam` (its projection on the camera forward vector
is negative). -/
def itemBehindCam : Item := ⟨5, ⟨0, 0, 15⟩⟩

/-- An object in front of `originCam` but far off the view axis, so it fails
the frustum test. -/
def itemOffAxis : Item := ⟨6, ⟨100, 0, -1⟩⟩

/-- The `Walls` object `renderScene` constructs each frame at the scene's
start position; `new` guarantees it is distinct from every resident object. -/
def wallsItem : Item := ⟨99, ⟨0, 0, 0⟩⟩

/-- Removal-scenario object at `(0, 0, 1)`: inserted after `itemC` and
`itemD` it becomes the back child of `itemC`'s node, so removing `itemC`
splices it into `itemD`'s front chain, where the classification descent can
no longer find it. -/
def itemE : Item := ⟨3, ⟨0, 0, 1⟩⟩

/-! Componentwise evaluation lemmas for the `Vec3` instances. -/

theorem Vec3.add_def (a b : Vec3) :
    a + b = ⟨a.x + b.x, a.y + b.y, a.z + b.z⟩ := rfl

theorem Vec3.sub_def (a b : Vec3) :
    a - b = ⟨a.x - b.x, a.y - b.y, a.z - b.z⟩ := rfl

theorem Vec3.smul_def (c : ℚ) (v : Vec3) :
    c • v = ⟨c * v.x, c * v.y, c * v.z⟩ := rfl

namespace BSPTree

/-- `insert` always yields a node: the C++ code either recurses into an
existing node or allocates a new one. -/
theorem insert_ne_nil (t : BSPTree) (x : Item) : insert t x ≠ nil := by
  cases t with
  | nil => simp [insert]
  | node p f b => simp only [insert]; split <;> simp

/-- Membership in the item set after an insertion. -/
theorem mem_itemsOf_insert {o x : Item} {t : BSPTree} :
    o ∈ (insert t x).itemsOf ↔ o ∈ t.itemsOf ∨ o = x := by
  induction t with
  | nil => simp [insert, itemsOf]
  | node p f b ihf ihb =>
    simp only [insert]
    split
    · simp [itemsOf, ihb]; tauto
    · simp [itemsOf, ihf]; tauto

/-- Attaching a subtree at the rightmost front slot preserves the stored
items up to permutation. -/
theorem perm_itemsOf_attachRightmost (f b : BSPTree) :
    ((attachRightmost f b).itemsOf).Perm (f.itemsOf ++ b.itemsOf) := by
  induction f with
  | nil => simp [attachRightmost, itemsOf]
  | node p ff fb ih1 ih2 =>
    simp only [attachRightmost, itemsOf, List.cons_append, List.append_assoc]
    refine List.Perm.cons p ((ih1.append_right _).trans ?_)
    have h := List.Perm.append_left ff.itemsOf
      (@List.perm_append_comm _ b.itemsOf fb.itemsOf)
    simpa [List.append_assoc] using h

/-- `mergeSubtrees` preserves the stored items up to permutation. -/
theorem perm_itemsOf_mergeSubtrees (f b : BSPTree) :
    ((mergeSubtrees f b).itemsOf).Perm (f.itemsOf ++ b.itemsOf) := by
  cases f with
  | nil => simp [mergeSubtrees, itemsOf]
  | node fp ff fb =>
    cases b with
    | nil => simp [mergeSubtrees, itemsOf]
    | node bp bf bb => exact perm_itemsOf_attachRightmost _ _

/-- Removal never touches the multiplicity of any object other than the one
passed to `remove`: matching is by identity, so even a distinct resident
object at the same position keeps its place in the tree. -/
theorem count_itemsOf_removeTree (t : BSPTree) (x y : Item) (h : y ≠ x) :
    ((removeTree t x).itemsOf).count y = (t.itemsOf).count y := by
  have hxy : (x == y) = false := by simp [Ne.symm h]
  induction t with
  | nil => simp [removeTree, removeFreed]
  | node p f b ihf ihb =>
    rw [removeTree, removeFreed.eq_def]
    by_cases hd : planeDot x p < 0
    · cases b with
      | nil => simp [hd]
      | node bp bf bb =>
        by_cases hbp : bp = x
        · simp only [if_pos hd, if_pos hbp]
          have hm := (perm_itemsOf_mergeSubtrees bf bb).count_eq y
          have hbpy : (bp == y) = false := by simp [hbp, Ne.symm h]
          simp [itemsOf, List.count_cons, List.count_append, hm, hbpy]
        · simp only [if_pos hd, if_neg hbp]
          have hb2 := ihb
          rw [removeTree] at hb2
          simp only [itemsOf, List.count_cons, List.count_append] at hb2 ⊢
          omega
    · cases f with
      | nil => simp [hd]
      | node fp ff fb =>
        by_cases hfp : fp = x
        · simp only [if_neg hd, if_pos hfp]
          have hm := (perm_itemsOf_mergeSubtrees ff fb).count_eq y
          have hfpy : (fp == y) = false := by simp [hfp, Ne.symm h]
          simp [itemsOf, List.count_cons, List.count_append, hm, hfpy]
          omega
        · simp only [if_neg hd, if_neg hfp]
          have hf2 := ihf
          rw [removeTree] at hf2
          simp only [itemsOf, List.count_cons, List.count_append] at hf2 ⊢
          omega

/-- When the classification descent never meets a child anchored at the very
object being removed, `remove` is a complete no-op: the tree is unchanged
and nothing is deallocated. -/
theorem removeFreed_of_findable_eq_false (t : BSPTree) (x : Item) :
    findable t x = false → removeFreed t x = (t, []) := by
  induction t with
  | nil => intro _; simp [removeFreed]
  | node p f b ihf ihb =>
    intro h
    rw [findable.eq_def] at h
    rw [removeFreed.eq_def]
    by_cases hd : planeDot x p < 0
    · cases b with
      | nil => simp [hd]
      | node bp bf bb =>
        simp only [if_pos hd] at h ⊢
        by_cases hbp : bp = x
        · simp [if_pos hbp] at h
        · simp only [if_neg hbp] at h ⊢
          simp [ihb h]
    · cases f with
      | nil => simp [hd]
      | node fp ff fb =>
        simp only [if_neg hd] at h ⊢
        by_cases hfp : fp = x
        · simp [if_pos hfp] at h
        · simp only [if_neg hfp] at h ⊢
          simp [ihf h]

/-- An object that is not resident in the tree is never found by the
removal descent. -/
theorem findable_eq_false_of_not_mem (t : BSPTree) (x : Item) :
    x ∉ t.itemsOf → findable t x = false := by
  induction t with
  | nil => intro _; simp [findable]
  | node p f b ihf ihb =>
    intro h
    simp only [itemsOf, List.mem_cons, List.mem_append] at h
    push_neg at h
    obtain ⟨hp, hf, hb⟩ := h
    rw [findable.eq_def]
    by_cases hd : planeDot x p < 0
    · cases b with
      | nil => simp [hd]
      | node bp bf bb =>
        have hbp : ¬bp = x := by
          intro he; exact hb (by simp [itemsOf, he])
        simp only [if_pos hd, if_neg hbp]
        exact ihb hb
    · cases f with
      | nil => simp [hd]
      | node fp ff fb =>
        have hfp : ¬fp = x := by
          intro he; exact hf (by simp [itemsOf, he])
        simp only [if_neg hd, if_neg hfp]
        exact ihf hf

/-- Removing a freshly inserted object undoes the insertion exactly: the new
node is a leaf, so the splice re-attaches nothing and only the inserted
object itself is deallocated. -/
theorem removeFreed_insert (t : BSPTree) (x : Item) :
    t ≠ .nil → x ∉ t.itemsOf → removeFreed (insert t x) x = (t, [x]) := by
  induction t with
  | nil => intro ht _; exact absurd rfl ht
  | node p f b ihf ihb =>
    intro _ hx
    simp only [itemsOf, List.mem_cons, List.mem_append] at hx
    push_neg at hx
    obtain ⟨hxp, hxf, hxb⟩ := hx
    by_cases hd : planeDot x p < 0
    · simp only [insert, if_pos hd]
      cases b with
      | nil =>
        rw [removeFreed.eq_def]
        simp [insert, hd, mergeSubtrees, childFreed]
      | node bp bf bb =>
        have hbp : bp ≠ x := by
          intro he; exact hxb (by simp [itemsOf, he])
        have hins := ihb (by simp) hxb
        obtain ⟨f2, b2, heq⟩ :
            ∃ f2 b2, insert (BSPTree.node bp bf bb) x = BSPTree.node bp f2 b2 := by
          simp only [insert]
          by_cases hd2 : planeDot x bp < 0
          · exact ⟨bf, insert bb x, by simp [if_pos hd2]⟩
          · exact ⟨insert bf x, bb, by simp [if_neg hd2]⟩
        rw [heq] at hins ⊢
        rw [removeFreed.eq_def]
        simp only [if_pos hd, if_neg hbp]
        simp [hins]
    · simp only [insert, if_neg hd]
      cases f with
      | nil =>
        rw [removeFreed.eq_def]
        simp [insert, hd, mergeSubtrees, childFreed]
      | node fp ff fb =>
        have hfp : fp ≠ x := by
          intro he; exact hxf (by simp [itemsOf, he])
        have hins := ihf (by simp) hxf
        obtain ⟨f2, b2, heq⟩ :
            ∃ f2 b2, insert (BSPTree.node fp ff fb) x = BSPTree.node fp f2 b2 := by
          simp only [insert]
          by_cases hd2 : planeDot x fp < 0
          · exact ⟨ff, insert fb x, by simp [if_pos hd2]⟩
          · exact ⟨insert ff x, fb, by simp [if_neg hd2]⟩
        rw [heq] at hins ⊢
        rw [removeFreed.eq_def]
        simp only [if_neg hd, if_neg hfp]
        simp [hins]

/-- Reverse-order removal unwinds a sequence of insertions completely. -/
theorem removeAll_insertAll_reverse (xs : List Item) (t : BSPTree) :
    t ≠ .nil → (∀ x ∈ xs, x ∉ t.itemsOf) → xs.Nodup →
    removeAll (insertAll t xs) xs.reverse = t := by
  induction xs generalizing t with
  | nil => intro _ _ _; simp [insertAll, removeAll]
  | cons x xs ih =>
    intro ht hmem hnd
    have hx : x ∉ t.itemsOf := hmem x (by simp)
    have hnd1 := List.nodup_cons.1 hnd
    have h1 : ∀ y ∈ xs, y ∉ (insert t x).itemsOf := by
      intro y hy hmemy
      rcases mem_itemsOf_insert.1 hmemy with hmy | hmy
      · exact hmem y (by simp [hy]) hmy
      · exact hnd1.1 (hmy ▸ hy)
    have h3 := ih (insert t x) (insert_ne_nil t x) h1 hnd1.2
    have h4 : removeTree (insert t x) x = t := by
      simp [removeTree, removeFreed_insert t x ht hx]
    calc removeAll (insertAll t (x :: xs)) (x :: xs).reverse
        = removeTree (removeAll (insertAll (insert t x) xs) xs.reverse) x := by
          simp [insertAll, removeAll, List.foldl_append]
      _ = t := by rw [h3, h4]

/-- A single insertion preserves the classification invariant. -/
theorem invariant_insert (x : Item) (t : BSPTree) :
    invariant t → invariant (insert t x) := by
  induction t with
  | nil => intro _; simp [insert, invariant, itemsOf]
  | node p f b ihf ihb =>
    intro h
    obtain ⟨hf, hb, hif, hib⟩ := h
    by_cases hd : planeDot x p < 0
    · simp only [insert, if_pos hd, invariant]
      refine ⟨hf, ?_, hif, ihb hib⟩
      intro o ho
      rcases mem_itemsOf_insert.1 ho with h1 | h1
      · exact hb o h1
      · exact h1 ▸ hd
    · simp only [insert, if_neg hd, invariant]
      refine ⟨?_, hb, ihf hif, hib⟩
      intro o ho
      rcases mem_itemsOf_insert.1 ho with h1 | h1
      · exact hf o h1
      · exact h1 ▸ le_of_not_lt hd

/-- Any sequence of insertions preserves the classification invariant. -/
theorem invariant_insertAll (xs : List Item) (t : BSPTree) :
    invariant t → invariant (insertAll t xs) := by
  induction xs generalizing t with
  | nil => intro h; simpa [insertAll] using h
  | cons x xs ih =>
    intro h
    simpa [insertAll] using ih (insert t x) (invariant_insert x t h)

/-- Every item the traversal emits is stored in the tree. -/
theorem getAllFrontItems_subset (t : BSPTree) (cam : Camera) (cf : Bool) :
    ∀ o ∈ getAllFrontItems t cam cf, o ∈ t.itemsOf := by
  induction t with
  | nil => simp [getAllFrontItems]
  | node p f b ihf ihb =>
    intro o ho
    simp only [getAllFrontItems] at ho
    split at ho
    · simp only [List.mem_append, List.mem_cons] at ho
      simp only [itemsOf, List.mem_cons, List.mem_append]
      rcases ho with h1 | h1 | h1
      · exact Or.inr (Or.inr (ihb o h1))
      · exact Or.inl h1
      · exact Or.inr (Or.inl (ihf o h1))
    · simp only [itemsOf, List.mem_cons, List.mem_append]
      exact Or.inr (Or.inl (ihf o ho))

end BSPTree

/-! The claims. -/

/-- C3: for every node whose anchor is strictly in front of the camera
(`dot(anchor.position - camera.position, camera.forward) > 0`) and which
passes the frustum check (or has the filter disabled), the traversal emits,
in order, the items of the back subtree, then the anchor, then the items of
the front subtree. -/
theorem traversal_front_branch (p : Item) (f b : BSPTree) (cam : Camera)
    (checkFrustum : Bool)
    (h1 : 0 < Vec3.dot (p.position - cam.Position) cam.Front)
    (h2 : checkFrustum = false ∨ BSPTree.isPointInFrustum p.position cam = true) :
    BSPTree.getAllFrontItems (.node p f b) cam checkFrustum =
      BSPTree.getAllFrontItems b cam checkFrustum
        ++ p :: BSPTree.getAllFrontItems f cam checkFrustum := by
  simp only [BSPTree.getAllFrontItems]
  rcases h2 with h2 | h2 <;> simp [h1, h2]

/-- Witness for C3: the scenario root anchor seen from the scenario camera
is in front, and with the filter disabled the claimed order equation holds
at that concrete node. -/
theorem traversal_front_branch_witness :
    0 < Vec3.dot (rootAnchor.position - sceneCam.Position) sceneCam.Front ∧
    BSPTree.getAllFrontItems
        (.node rootAnchor (.node itemB .nil .nil) (.node itemA .nil .nil))
        sceneCam false =
      BSPTree.getAllFrontItems (.node itemA .nil .nil) sceneCam false
        ++ rootAnchor :: BSPTree.getAllFrontItems (.node itemB .nil .nil) sceneCam false :=
  ⟨by norm_num [rootAnchor, sceneCam, Vec3.dot, Vec3.sub_def],
   traversal_front_branch rootAnchor (.node itemB .nil .nil) (.node itemA .nil .nil)
     sceneCam false (by norm_num [rootAnchor, sceneCam, Vec3.dot, Vec3.sub_def]) (Or.inl rfl)⟩

/-- C4: a node whose anchor is not strictly in front of the camera, or which
fails the frustum test while the filter is enabled, emits nothing of its own
and nothing of its back subtree: the traversal result is exactly the front
subtree's emission.  An in-front anchor failing the frustum test takes this
same branch. -/
theorem traversal_skip_branch (p : Item) (f b : BSPTree) (cam : Camera)
    (checkFrustum : Bool)
    (h : Vec3.dot (p.position - cam.Position) cam.Front ≤ 0 ∨
         (checkFrustum = true ∧ BSPTree.isPointInFrustum p.position cam = false)) :
    BSPTree.getAllFrontItems (.node p f b) cam checkFrustum =
      BSPTree.getAllFrontItems f cam checkFrustum := by
  simp only [BSPTree.getAllFrontItems]
  rcases h with h | ⟨h1, h2⟩
  · simp [not_lt.2 h]
  · simp [h1, h2]

/-- Witness for C4: a behind-the-camera anchor skips its back subtree with
the filter off, and an in-front but out-of-frustum anchor takes the same
branch with the filter on. -/
theorem traversal_skip_branch_witness :
    (Vec3.dot (itemBehindCam.position - sceneCam.Position) sceneCam.Front ≤ 0 ∧
      BSPTree.getAllFrontItems
          (.node itemBehindCam (.node itemB .nil .nil) (.node itemA .nil .nil))
          sceneCam false =
        BSPTree.getAllFrontItems (.node itemB .nil .nil) sceneCam false) ∧
    (0 < Vec3.dot (itemOffAxis.position - originCam.Position) originCam.Front ∧
      BSPTree.isPointInFrustum itemOffAxis.position originCam = false ∧
      BSPTree.getAllFrontItems
          (.node itemOffAxis (.node itemB .nil .nil) (.node itemA .nil .nil))
          originCam true =
        BSPTree.getAllFrontItems (.node itemB .nil .nil) originCam true) :=
  ⟨⟨by norm_num [itemBehindCam, sceneCam, Vec3.dot, Vec3.sub_def],
    traversal_skip_branch itemBehindCam (.node itemB .nil .nil) (.node itemA .nil .nil)
      sceneCam false (Or.inl (by norm_num [itemBehindCam, sceneCam, Vec3.dot, Vec3.sub_def]))⟩,
   ⟨by norm_num [itemOffAxis, originCam, Vec3.dot, Vec3.sub_def],
    by norm_num [BSPTree.isPointInFrustum, itemOffAxis, originCam, Vec3.dot, Vec3.cross, Vec3.sub_def, Vec3.add_def, Vec3.smul_def],
    traversal_skip_branch itemOffAxis (.node itemB .nil .nil) (.node itemA .nil .nil)
      originCam true (Or.inr ⟨rfl,
        by norm_num [BSPTree.isPointInFrustum, itemOffAxis, originCam, Vec3.dot, Vec3.cross, Vec3.sub_def, Vec3.add_def, Vec3.smul_def]⟩)⟩⟩

/-- C5: the per-part draw step selects the high-detail mesh iff the
camera-to-part distance is below 8, the low-detail mesh iff it is between 8
and 19 inclusive, and draws nothing iff it exceeds 19. -/
theorem lod_selection {α : Type} (highMesh lowMesh : α) (hne : highMesh ≠ lowMesh)
    (d : ℚ) :
    (Item.drawMeshBasedOnDistance d highMesh lowMesh = some highMesh ↔ d < 8) ∧
    (Item.drawMeshBasedOnDistance d highMesh lowMesh = some lowMesh ↔ 8 ≤ d ∧ d ≤ 19) ∧
    (Item.drawMeshBasedOnDistance d highMesh lowMesh = none ↔ 19 < d) := by
  unfold Item.drawMeshBasedOnDistance
  split_ifs with h1 h2
  · refine ⟨⟨fun _ => h1, fun _ => rfl⟩, ?_, ?_⟩
    · constructor
      · intro he; exact absurd (Option.some.inj he) hne
      · rintro ⟨h8, _⟩; linarith
    · constructor
      · intro he; exact he.elim
      · intro h19; linarith
  · refine ⟨?_, ⟨fun _ => ⟨not_lt.1 h1, h2⟩, fun _ => rfl⟩, ?_⟩
    · constructor
      · intro he; exact absurd (Option.some.inj he) (Ne.symm hne)
      · intro h8; exact absurd h8 h1
    · constructor
      · intro he; exact he.elim
      · intro h19; linarith
  · refine ⟨?_, ?_, ⟨fun _ => not_le.1 h2, fun _ => rfl⟩⟩
    · constructor
      · intro he; exact he.elim
      · intro h8; exact absurd h8 h1
    · constructor
      · intro he; exact he.elim
      · rintro ⟨_, h19⟩; exact absurd h19 h2

/-- Witness for C5: the LOD boundary values of the spec, with two distinct
mesh tokens: 7.999 selects high, 8 and 19 select low, 19.001 selects
nothing. -/
theorem lod_selection_witness :
    (0 : ℕ) ≠ 1 ∧
    Item.drawMeshBasedOnDistance (7999 / 1000 : ℚ) (0 : ℕ) 1 = some 0 ∧
    Item.drawMeshBasedOnDistance (8 : ℚ) (0 : ℕ) 1 = some 1 ∧
    Item.drawMeshBasedOnDistance (19 : ℚ) (0 : ℕ) 1 = some 1 ∧
    Item.drawMeshBasedOnDistance (19001 / 1000 : ℚ) (0 : ℕ) 1 = none :=
  ⟨by norm_num,
   (lod_selection 0 1 (by norm_num) (7999 / 1000)).1.mpr (by norm_num),
   (lod_selection 0 1 (by norm_num) 8).2.1.mpr (by norm_num),
   (lod_selection 0 1 (by norm_num) 19).2.1.mpr (by norm_num),
   (lod_selection 0 1 (by norm_num) (19001 / 1000)).2.2.mpr (by norm_num)⟩

/-- C7: after constructing a root and performing any sequence of insertions
(no removals, positions unchanged), every node's front subtree holds only
objects with non-negative projection onto `(0,0,1)` relative to the node's
anchor, and its back subtree only objects with negative projection. -/
theorem insert_only_classification_invariant (root : Item) (xs : List Item) :
    BSPTree.invariant (BSPTree.insertAll (.node root .nil .nil) xs) :=
  BSPTree.invariant_insertAll xs _ (by simp [BSPTree.invariant, BSPTree.itemsOf])

/-- C8: removal matches by identity and is atomic on failure.  Every object
other than the exact reference passed to `remove` keeps its multiplicity in
the tree (so a distinct resident object at the same position is never
detached); and whenever the classification descent finds no identity match —
in particular whenever the object is not resident — the tree is left
completely unchanged and nothing is deallocated or signalled. -/
theorem remove_identity_noop (t : BSPTree) (x : Item) :
    (∀ y : Item, y ≠ x →
      ((BSPTree.removeTree t x).itemsOf).count y = (t.itemsOf).count y) ∧
    (BSPTree.findable t x = false →
      BSPTree.removeTree t x = t ∧ BSPTree.freedBy t x = []) ∧
    (x ∉ t.itemsOf →
      BSPTree.removeTree t x = t ∧ BSPTree.freedBy t x = []) := by
  refine ⟨fun y hy => BSPTree.count_itemsOf_removeTree t x y hy, ?_, ?_⟩
  · intro h
    have h2 := BSPTree.removeFreed_of_findable_eq_false t x h
    constructor
    · simp [BSPTree.removeTree, h2]
    · simp [BSPTree.freedBy, h2]
  · intro h
    have h1 := BSPTree.findable_eq_false_of_not_mem t x h
    have h2 := BSPTree.removeFreed_of_findable_eq_false t x h1
    constructor
    · simp [BSPTree.removeTree, h2]
    · simp [BSPTree.freedBy, h2]

/-- Witness for C8: removing `itemBTwin` (same position as the resident
`itemB`, different identity) leaves `itemB`'s multiplicity intact, and
removing an object that is not resident at all leaves the tree unchanged
with nothing freed. -/
theorem remove_identity_noop_witness :
    ((BSPTree.removeTree twinTree itemBTwin).itemsOf).count itemB =
      (twinTree.itemsOf).count itemB ∧
    (BSPTree.removeTree twinTree itemOffAxis = twinTree ∧
      BSPTree.freedBy twinTree itemOffAxis = []) :=
  ⟨(remove_identity_noop twinTree itemBTwin).1 itemB
      (by norm_num [itemB, itemBTwin]),
   (remove_identity_noop twinTree itemOffAxis).2.2
      (by norm_num [twinTree, BSPTree.insertAll, BSPTree.insert, BSPTree.itemsOf,
        BSPTree.planeDot, BSPTree.normalVec, Vec3.dot, Vec3.sub_def,
        rootAnchor, itemB, itemBTwin, itemOffAxis])⟩

/-- C9: for every camera whose forward and up vectors are orthonormal, the
on-axis point `camera.position + camera.forward * 50` passes all six
reference-point half-space tests, so `isPointInFrustum` returns `true` —
whatever the field of view and normalization scalars, in particular for a
wide 90-degree field of view. -/
theorem frustum_on_axis (cam : Camera)
    (hF : Vec3.dot cam.Front cam.Front = 1)
    (hU : Vec3.dot cam.Up cam.Up = 1)
    (hFU : Vec3.dot cam.Front cam.Up = 0) :
    BSPTree.isPointInFrustum (cam.Position + (50 : ℚ) • cam.Front) cam = true := by
  obtain ⟨P, F, U, ir, iu, th⟩ := cam
  obtain ⟨px, py, pz⟩ := P
  obtain ⟨fx, fy, fz⟩ := F
  obtain ⟨ux, uy, uz⟩ := U
  simp only [Vec3.dot] at hF hU hFU
  simp only [BSPTree.isPointInFrustum, Vec3.cross, Vec3.dot, Vec3.add_def,
    Vec3.sub_def, Vec3.smul_def, List.all_cons, List.all_nil, Bool.and_eq_true,
    decide_eq_true_eq, Bool.and_true]
  refine ⟨?_, ?_, ?_, ?_, ?_, ?_⟩ <;> nlinarith [hF]

/-- Witness for C9: the origin camera's forward `(0,0,-1)` and up `(0,1,0)`
are orthonormal, and the point 50 units along its forward vector is reported
visible. -/
theorem frustum_on_axis_witness :
    (Vec3.dot originCam.Front originCam.Front = 1 ∧
      Vec3.dot originCam.Up originCam.Up = 1 ∧
      Vec3.dot originCam.Front originCam.Up = 0) ∧
    BSPTree.isPointInFrustum
      (originCam.Position + (50 : ℚ) • originCam.Front) originCam = true :=
  ⟨⟨by norm_num [originCam, Vec3.dot], by norm_num [originCam, Vec3.dot],
    by norm_num [originCam, Vec3.dot]⟩,
   frustum_on_axis originCam (by norm_num [originCam, Vec3.dot])
     (by norm_num [originCam, Vec3.dot]) (by norm_num [originCam, Vec3.dot])⟩

/-- C10: every `renderScene` call renders exactly the queried visible list
followed by one extra `Walls` object that was never inserted into the
partition; since the query only ever emits resident objects, the fresh
`Walls` object is not part of the queried list, for every camera state and
both values of the frustum toggle. -/
theorem renderScene_extra_walls (t : BSPTree) (cam : Camera) (checkFrustum : Bool)
    (walls : Item) (hw : walls ∉ t.itemsOf) :
    SceneManagerBSP.renderScene t cam checkFrustum walls =
      BSPTree.getCurrentFrontItems t cam checkFrustum ++ [walls] ∧
    walls ∉ BSPTree.getCurrentFrontItems t cam checkFrustum := by
  refine ⟨rfl, fun hmem => hw ?_⟩
  exact BSPTree.getAllFrontItems_subset t cam checkFrustum walls hmem

/-- Witness for C10: the scenario tree does not contain the fresh `Walls`
object, and the frame's render list is the query result plus that one extra
render, which is absent from the query result. -/
theorem renderScene_extra_walls_witness :
    wallsItem ∉ scenarioTree.itemsOf ∧
    (SceneManagerBSP.renderScene scenarioTree sceneCam true wallsItem =
      BSPTree.getCurrentFrontItems scenarioTree sceneCam true ++ [wallsItem] ∧
     wallsItem ∉ BSPTree.getCurrentFrontItems scenarioTree sceneCam true) :=
  ⟨by norm_num [scenarioTree, BSPTree.insertAll, BSPTree.insert, BSPTree.itemsOf,
     BSPTree.planeDot, BSPTree.normalVec, Vec3.dot, Vec3.sub_def,
     rootAnchor, itemA, itemB, wallsItem],
   renderScene_extra_walls scenarioTree sceneCam true wallsItem
     (by norm_num [scenarioTree, BSPTree.insertAll, BSPTree.insert, BSPTree.itemsOf,
       BSPTree.planeDot, BSPTree.normalVec, Vec3.dot, Vec3.sub_def,
       rootAnchor, itemA, itemB, wallsItem])⟩

/-- Counterexample to C1 as stated: (i) after inserting one object and
removing it again, the tree still holds the construction-time root anchor,
and a camera facing that anchor receives a non-empty visible list (the root
anchor itself), already with the frustum filter disabled; (ii) for the
removal order `itemC, itemE, itemD` of the three inserted objects `itemC,
itemD, itemE`, the inserted object `itemE` is still emitted afterwards: once
`itemC`'s removal splices its back child under `itemD`, the classification
descent for `itemE` turns towards a null slot and `remove` silently misses
it. -/
theorem roundtrip_empty_query_cex :
    BSPTree.getCurrentFrontItems
      (BSPTree.removeAll
        (BSPTree.insertAll (.node rootAnchor .nil .nil) [itemA]) [itemA])
      sceneCam false ≠ [] ∧
    itemE ∈ BSPTree.getCurrentFrontItems
      (BSPTree.removeAll
        (BSPTree.insertAll (.node rootAnchor .nil .nil) [itemC, itemD, itemE])
        [itemC, itemE, itemD])
      sceneCam false := by
  have h1 : BSPTree.removeAll
      (BSPTree.insertAll (.node rootAnchor .nil .nil) [itemA]) [itemA] =
      .node rootAnchor .nil .nil := by
    norm_num [BSPTree.insertAll, BSPTree.removeAll, BSPTree.insert,
      BSPTree.removeTree, BSPTree.removeFreed, BSPTree.mergeSubtrees,
      BSPTree.childFreed, BSPTree.planeDot, BSPTree.normalVec, Vec3.dot,
      Vec3.sub_def, rootAnchor, itemA]
  have h2 : BSPTree.removeAll
      (BSPTree.insertAll (.node rootAnchor .nil .nil) [itemC, itemD, itemE])
      [itemC, itemE, itemD] =
      .node rootAnchor (.node itemE .nil .nil) .nil := by
    norm_num [BSPTree.insertAll, BSPTree.removeAll, BSPTree.insert,
      BSPTree.removeTree, BSPTree.removeFreed, BSPTree.mergeSubtrees,
      BSPTree.attachRightmost, BSPTree.childFreed, BSPTree.planeDot,
      BSPTree.normalVec, Vec3.dot, Vec3.sub_def, rootAnchor, itemC, itemD, itemE]
  rw [h1, h2]
  constructor <;>
    norm_num [BSPTree.getCurrentFrontItems, BSPTree.getAllFrontItems,
      Vec3.dot, Vec3.sub_def, rootAnchor, itemE, sceneCam]

/-- C1 amended: inserting N distinct objects (all distinct from the root
anchor) and removing them in reverse insertion order restores the root-only
tree exactly; the query on that tree can still emit the root anchor itself,
so its result is merely contained in `[rootAnchor]` — empty only for cameras
that do not see the root anchor.  (Arbitrary removal orders can fail to find
their target after a structural merge, and the root anchor is always
resident, so the original statement is doubly too strong.) -/
theorem roundtrip_reverse_removal (root : Item) (xs : List Item)
    (h : (root :: xs).Nodup) :
    BSPTree.removeAll (BSPTree.insertAll (.node root .nil .nil) xs) xs.reverse =
      .node root .nil .nil ∧
    ∀ (cam : Camera) (checkFrustum : Bool),
      BSPTree.getCurrentFrontItems (.node root .nil .nil) cam checkFrustum ⊆
        [root] := by
  have hnd := List.nodup_cons.1 h
  constructor
  · refine BSPTree.removeAll_insertAll_reverse xs _ (by simp) ?_ hnd.2
    intro x hx
    simp only [BSPTree.itemsOf, List.append_nil, List.mem_singleton]
    intro he
    exact hnd.1 (he ▸ hx)
  · intro cam checkFrustum
    simp only [BSPTree.getCurrentFrontItems, BSPTree.getAllFrontItems]
    split
    · intro y hy; simpa using hy
    · intro y hy; simp at hy

/-- Witness for C1 amended: with the scenario root anchor and the single
object A, reverse-order removal restores the root-only tree, and the
scenario camera's query on it stays within `[rootAnchor]`. -/
theorem roundtrip_reverse_removal_witness :
    (rootAnchor :: [itemA]).Nodup ∧
    BSPTree.removeAll
      (BSPTree.insertAll (.node rootAnchor .nil .nil) [itemA]) [itemA].reverse =
      .node rootAnchor .nil .nil ∧
    BSPTree.getCurrentFrontItems (.node rootAnchor .nil .nil) sceneCam false ⊆
      [rootAnchor] :=
  ⟨by norm_num [rootAnchor, itemA],
   (roundtrip_reverse_removal rootAnchor [itemA]
     (by norm_num [rootAnchor, itemA])).1,
   (roundtrip_reverse_removal rootAnchor [itemA]
     (by norm_num [rootAnchor, itemA])).2 sceneCam false⟩

/-- Counterexample to C2 as stated: object B at `(0,0,5)` projects
positively onto the forward vector of the camera at `(0,0,10)` facing
`(0,0,-1)` — it is in front of the camera, not behind it — so the query
emits B, both without and with the frustum filter. -/
theorem scenario_excludes_B_cex :
    itemB ∈ BSPTree.getCurrentFrontItems scenarioTree sceneCam false ∧
    itemB ∈ BSPTree.getCurrentFrontItems scenarioTree sceneCam true := by
  constructor <;>
    norm_num [scenarioTree, BSPTree.insertAll, BSPTree.insert,
      BSPTree.getCurrentFrontItems, BSPTree.getAllFrontItems,
      BSPTree.isPointInFrustum, BSPTree.planeDot, BSPTree.normalVec,
      Vec3.dot, Vec3.cross, Vec3.sub_def, Vec3.add_def, Vec3.smul_def,
      rootAnchor, itemA, itemB, sceneCam]

/-- C2 amended: in the scenario (root anchor at the origin, A at `(0,0,-5)`
inserted into the back subtree, B at `(0,0,5)` inserted into the front
subtree, camera at `(0,0,10)` facing `(0,0,-1)`), the query emits
`[A, rootAnchor, B]` — A from the back subtree before the root anchor, then
B — and B is included, because it lies in front of the camera; the same list
results with the frustum filter enabled. -/
theorem scenario_order :
    BSPTree.getCurrentFrontItems scenarioTree sceneCam false =
      [itemA, rootAnchor, itemB] ∧
    BSPTree.getCurrentFrontItems scenarioTree sceneCam true =
      [itemA, rootAnchor, itemB] := by
  constructor <;>
    norm_num [scenarioTree, BSPTree.insertAll, BSPTree.insert,
      BSPTree.getCurrentFrontItems, BSPTree.getAllFrontItems,
      BSPTree.isPointInFrustum, BSPTree.planeDot, BSPTree.normalVec,
      Vec3.dot, Vec3.cross, Vec3.sub_def, Vec3.add_def, Vec3.smul_def,
      rootAnchor, itemA, itemB, sceneCam]

/-- C6 (code behaviour at the failing input): removing `itemC`, whose node
has the populated child node of `itemD`, splices `itemD`'s node back into
the tree but ALSO passes both `itemC` and `itemD` to `delete` — the
destructor of the removed node recursively deletes the child subtree that
`mergeSubtrees` has just re-linked.  `itemD` is freed while still reachable
from the surviving tree, and `itemC`'s ownership is never returned to the
caller. -/
theorem remove_deletes_spliced_subtree :
    BSPTree.removeFreed removalTree itemC =
      (.node rootAnchor (.node itemD .nil .nil) .nil, [itemC, itemD]) ∧
    itemD ∈ (BSPTree.node rootAnchor (.node itemD .nil .nil) .nil).itemsOf := by
  constructor
  · norm_num [removalTree, BSPTree.insertAll, BSPTree.insert,
      BSPTree.removeFreed, BSPTree.mergeSubtrees, BSPTree.attachRightmost,
      BSPTree.childFreed, BSPTree.planeDot, BSPTree.normalVec,
      Vec3.dot, Vec3.sub_def, rootAnchor, itemC, itemD]
  · simp [BSPTree.itemsOf]
